import Mathlib

/-!
Verification of the VisionCare eye-analysis core against its specification.

The repository ships the React frontend (src/frontend/src/App.js and the
Gauge / MetricBar components); the Django analysis engine itself is not in
the source tree, so the engine definitions below are modelled from the
specification text and marked as such in their doc comments.  Frontend
functions are embedded directly from the JavaScript source.
-/

namespace VisionCare

/-! ## JavaScript value and string model (frontend App.js) -/

/-- A JavaScript string, modelled as its list of characters. -/
abbrev JStr := List Char

/-- JavaScript `s.startsWith(p)` on the character-list model. -/
def jsStartsWith : JStr → JStr → Bool
  | [], _ => true
  | _ :: _, [] => false
  | a :: as, b :: bs => (a == b) && jsStartsWith as bs

/-- A JavaScript value as far as `toAbsoluteUrl` inspects it: null,
undefined, a string, or any other non-string value. -/
inductive JsValue where
  | nullV
  | undef
  | str (s : JStr)
  | other
deriving DecidableEq

/-- `BACKEND_URL` from App.js line 18: the environment variable is absent
from the source tree, so the literal fallback applies. -/
def BACKEND_URL : JStr := "http://127.0.0.1:8001".toList

/-- `toAbsoluteUrl` from src/frontend/src/App.js lines 26-32: falsy values
(the empty string, null, undefined) and non-strings are returned unchanged,
strings already absolute are returned unchanged, strings starting with a
slash are prefixed with the backend base URL, anything else is returned
unchanged. -/
def toAbsoluteUrl : JsValue → JsValue
  | .str s =>
      if s = [] then .str s
      else if jsStartsWith "http://".toList s || jsStartsWith "https://".toList s then .str s
      else if jsStartsWith "/".toList s then .str (BACKEND_URL ++ s)
      else .str s
  | v => v

/-! ## Gauge and MetricBar (src/unnamed/part_001) -/

/-- The result of the JavaScript coercion `Number(value)`: either a finite
rational or NaN (`none`), the latter covering every non-numeric input. -/
abbrev JsNumber := Option ℚ

/-- JavaScript `Number(value) || 0`: NaN becomes 0 (and 0 stays 0). -/
def jsNumberOrZero : JsNumber → ℚ
  | none => 0
  | some q => q

/-- Gauge line 13: `const v = Math.max(0, Math.min(1, Number(value) || 0))`. -/
def Gauge_v (value : JsNumber) : ℚ := max 0 (min 1 (jsNumberOrZero value))

/-- Gauge line 14: `const pct = Math.round(v * 100)` (`Math.round` is
floor of the argument plus one half, as is Mathlib `round`). -/
def Gauge_pct (value : JsNumber) : ℤ := round (Gauge_v value * 100)

/-- MetricBar line 68:
`const pct = Math.max(0, Math.min(100, Math.round((Number(value) || 0) * 100)))`. -/
def MetricBar_pct (value : JsNumber) : ℤ :=
  max 0 (min 100 (round (jsNumberOrZero value * 100)))

/-! ## Diagnosis vocabulary (frontend App.js lines 1429-1444) -/

/-- `DIAGNOSIS_ES` from src/frontend/src/App.js lines 1429-1437: the
lookup table translating the diagnosis keys produced by the backend into
display text.  Keys absent from the table render as the raw key. -/
def DIAGNOSIS_ES (k : String) : Option String :=
  if k = "normal" then some "Normal"
  else if k = "conjunctivitis" then some "Conjuntivitis"
  else if k = "cataracts" then some "Cataratas"
  else if k = "multiple conditions" then some "Múltiples condiciones"
  else if k = "opacidades_menores" then some "Opacidades menores"
  else if k = "redness_minor" then some "Rojez moderada"
  else if k = "unknown" then some "Desconocido"
  else none

/-- `SEVERITY_ES` from src/frontend/src/App.js lines 1439-1444. -/
def SEVERITY_ES (k : String) : Option String :=
  if k = "normal" then some "Normal"
  else if k = "mild" then some "Leve"
  else if k = "moderate" then some "Moderada"
  else if k = "severe" then some "Severa"
  else none

/-! ## Image model and feature extractor

Modelled from the spec: the Django analysis engine (`vision_app`) is not in
the source tree; sections 3 and 4.1-4.5 of the spec define it. -/

/-- One RGB pixel with 8-bit channels. -/
structure Pixel where
  r : Fin 256
  g : Fin 256
  b : Fin 256
deriving DecidableEq

/-- Modelled from the spec: an ImageBuffer is a decoded pixel grid
(height times width times channels). -/
structure ImageBuffer where
  height : ℕ
  width : ℕ
  pixels : List Pixel
deriving DecidableEq

/-- A usable pixel grid: nonzero dimensions and a matching pixel count. -/
def ImageBuffer.valid (img : ImageBuffer) : Bool :=
  0 < img.height && 0 < img.width && img.pixels.length == img.height * img.width

/-- Sum of the three channel values of a pixel, in 0..765. -/
def pixSum (p : Pixel) : ℕ := p.r.val + p.g.val + p.b.val

/-- An under-exposed pixel (mean channel value below 30). -/
def isDark (p : Pixel) : Bool := pixSum p < 90

/-- An over-exposed pixel (mean channel value above 225). -/
def isBright (p : Pixel) : Bool := 675 < pixSum p

/-- A high-contrast pixel, proxy for thin vascular structure. -/
def isVascular (p : Pixel) : Bool :=
  60 < max p.r.val (max p.g.val p.b.val) - min p.r.val (min p.g.val p.b.val)

/-- Whitish intensity of a pixel: its least channel value. -/
def whiteness (p : Pixel) : ℕ := min p.r.val (min p.g.val p.b.val)

/-- Clamp a rational to the unit interval. -/
def clamp01 (q : ℚ) : ℚ := max 0 (min 1 q)

/-- Image-quality verdict of the advisory quality gate. -/
inductive QualityFlag where
  | low
  | acceptable
deriving DecidableEq

/-- Modelled from the spec (section 3): the FeatureSet record. -/
structure FeatureSet where
  redness_score : ℚ
  opacity_score : ℚ
  vascular_density_score : ℚ
  quality_score : ℚ
  quality_flag : QualityFlag
  mean_brightness : ℚ
  dark_ratio : ℚ
  bright_ratio : ℚ
deriving DecidableEq

/-- Modelled from the spec (section 4.1): the deterministic heuristic
Feature Extractor.  Exposure metrics are histogram fractions, redness is
clamped normalized red dominance, opacity is normalized whiteness,
vascular density is the fraction of high-contrast pixels, quality is one
minus the under- and over-exposed fractions, and the flag is `low` below
the fixed threshold 0.4. -/
def extractFeatures (img : ImageBuffer) : FeatureSet :=
  let px := img.pixels
  let n : ℚ := (px.length : ℚ)
  let darkR : ℚ := ((px.countP isDark : ℕ) : ℚ) / n
  let brightR : ℚ := ((px.countP isBright : ℕ) : ℚ) / n
  let q : ℚ := 1 - darkR - brightR
  let redRaw : ℤ := (px.map (fun p => 2 * (p.r.val : ℤ) - (p.g.val : ℤ) - (p.b.val : ℤ))).sum
  { redness_score := clamp01 ((redRaw : ℚ) / (510 * n))
  , opacity_score := (((px.map whiteness).sum : ℕ) : ℚ) / (255 * n)
  , vascular_density_score := ((px.countP isVascular : ℕ) : ℚ) / n
  , quality_score := q
  , quality_flag := if q < 2/5 then .low else .acceptable
  , mean_brightness := (((px.map pixSum).sum : ℕ) : ℚ) / (765 * n)
  , dark_ratio := darkR
  , bright_ratio := brightR }

/-! ## Class-probability vectors and the ensemble classifier -/

/-- Modelled from the spec: a ClassProbabilityVector over the class set of
the system (normal, cataracts, conjunctivitis). -/
structure ProbVector where
  normal : ℚ
  cataracts : ℚ
  conjunctivitis : ℚ
deriving DecidableEq

/-- Every entry of the vector lies in the unit interval. -/
def ProbVector.Wellformed (v : ProbVector) : Prop :=
  0 ≤ v.normal ∧ v.normal ≤ 1 ∧ 0 ≤ v.cataracts ∧ v.cataracts ≤ 1 ∧
    0 ≤ v.conjunctivitis ∧ v.conjunctivitis ≤ 1

instance (v : ProbVector) : Decidable v.Wellformed := by
  unfold ProbVector.Wellformed; infer_instance

/-- Turn raw model outputs into a probability vector: negative scores are
zeroed, then the vector is scaled to sum to one (uniform when all zero). -/
def normalizeVec (a b c : ℚ) : ProbVector :=
  if max a 0 + max b 0 + max c 0 = 0 then ⟨1/3, 1/3, 1/3⟩
  else ⟨max a 0 / (max a 0 + max b 0 + max c 0),
        max b 0 / (max a 0 + max b 0 + max c 0),
        max c 0 / (max a 0 + max b 0 + max c 0)⟩

/-- Probability the vector assigns to its top class. -/
def topProb (v : ProbVector) : ℚ := max v.normal (max v.cataracts v.conjunctivitis)

/-- Componentwise average of a list of vectors (zero on the empty list). -/
def vecAvg (l : List ProbVector) : ProbVector :=
  ⟨((l.map ProbVector.normal).sum) / (l.length : ℚ),
   ((l.map ProbVector.cataracts).sum) / (l.length : ℚ),
   ((l.map ProbVector.conjunctivitis).sum) / (l.length : ℚ)⟩

/-- Modelled from the spec (section 4.2): a loaded classification model; a
failing model is dropped from the ensemble, never escalated. -/
structure Model where
  provider : String
  fails : Bool
  raw : ImageBuffer → ℚ × ℚ × ℚ

/-- Deterministic linear congruential generator driving augmentation. -/
def lcg (s : ℕ) : ℕ := (1103515245 * s + 12345) % 2147483648

/-- The first `k` augmentation seeds drawn from the generator. -/
def augSeeds : ℕ → ℕ → List ℕ
  | 0, _ => []
  | k + 1, s => lcg s :: augSeeds k (lcg s)

/-- Number of augmented views per model (spec: a small fixed number). -/
def AUG_COUNT : ℕ := 3

/-- Modelled from the spec: one deterministic augmented view of the image
(a horizontal flip when the seed is odd). -/
def augmentView (img : ImageBuffer) (r : ℕ) : ImageBuffer :=
  if r % 2 = 0 then img else { img with pixels := img.pixels.reverse }

/-- One AugmentedRun: one model on one augmented view. -/
def runVec (m : Model) (img : ImageBuffer) (r : ℕ) : ProbVector :=
  let t := m.raw (augmentView img r)
  normalizeVec t.1 t.2.1 t.2.2

/-- All AugmentedRuns of one model for one request. -/
def modelRuns (m : Model) (img : ImageBuffer) (seed : ℕ) : List ProbVector :=
  (augSeeds AUG_COUNT seed).map (runVec m img)

/-- Per-model vector: average over the AugmentedRuns of the model. -/
def modelVec (m : Model) (img : ImageBuffer) (seed : ℕ) : ProbVector :=
  vecAvg (modelRuns m img seed)

/-- Final ensemble vector: equal-weight average of the per-model vectors. -/
def ensembleVec (usable : List Model) (img : ImageBuffer) (seed : ℕ) : ProbVector :=
  vecAvg (usable.map (fun m => modelVec m img seed))

/-- Mean over AugmentedRuns of the probability of the top class of the run. -/
def meanTopProb (runs : List ProbVector) : ℚ :=
  ((runs.map topProb).sum) / (runs.length : ℚ)

/-- Modelled from the spec (section 3): the uncertainty record carries the
final ensemble vector (from which entropy is derived) and the mean
top-class probability across runs. -/
structure UncertaintyEstimate where
  vector : ProbVector
  mean_top_prob : ℚ
deriving DecidableEq

/-! ## Fusion and decision engine -/

/-- The diagnosis vocabulary of the engine; the constructor names follow
the keys the backend emits, as enumerated by the frontend lookup table
`DIAGNOSIS_ES` (App.js lines 1429-1437). -/
inductive Diagnosis where
  | normal
  | cataracts
  | conjunctivitis
  | multiple_conditions
  | opacidades_menores
  | redness_minor
  | unknown
deriving DecidableEq

/-- Severity bands of the engine. -/
inductive Severity where
  | normal
  | mild
  | moderate
  | severe
deriving DecidableEq

/-- The string key a diagnosis is serialized under (the keys of
`DIAGNOSIS_ES`). -/
def diagKey : Diagnosis → String
  | .normal => "normal"
  | .cataracts => "cataracts"
  | .conjunctivitis => "conjunctivitis"
  | .multiple_conditions => "multiple conditions"
  | .opacidades_menores => "opacidades_menores"
  | .redness_minor => "redness_minor"
  | .unknown => "unknown"

/-- Default decisive threshold (spec section 4.3). -/
def P_HIGH : ℚ := 3/4

/-- Default probable threshold (spec section 4.3). -/
def P_MID : ℚ := 11/20

/-- Modelled from the spec (section 4.3, rule 3): severity is the matched
score discretized into fixed bands; a normal diagnosis forces severity
normal. -/
def sevOf (d : Diagnosis) (s : ℚ) : Severity :=
  if d = .normal then .normal
  else if s < 11/20 then .mild
  else if s < 17/20 then .moderate
  else .severe

/-- Modelled from the spec (section 4.3, rule 1 and the tie-break rule):
decision on an ensemble vector.  Two or more non-normal classes at or
above the high threshold give `multiple_conditions`; exactly one gives the
full label; otherwise a class at or above the mid threshold gives the
minor variant; otherwise normal.  Returns the diagnosis and the matched
score. -/
def fuseEnsemble (ph pm : ℚ) (v : ProbVector) : Diagnosis × ℚ :=
  if ph ≤ v.cataracts ∧ ph ≤ v.conjunctivitis then
    (.multiple_conditions, max v.cataracts v.conjunctivitis)
  else if ph ≤ v.cataracts then (.cataracts, v.cataracts)
  else if ph ≤ v.conjunctivitis then (.conjunctivitis, v.conjunctivitis)
  else if pm ≤ v.cataracts ∧ v.conjunctivitis < pm then (.opacidades_menores, v.cataracts)
  else if pm ≤ v.conjunctivitis ∧ v.cataracts < pm then (.redness_minor, v.conjunctivitis)
  else if pm ≤ v.cataracts ∧ pm ≤ v.conjunctivitis then
    (if v.conjunctivitis ≤ v.cataracts then (.opacidades_menores, v.cataracts)
     else (.redness_minor, v.conjunctivitis))
  else (.normal, v.normal)

/-- Modelled from the spec (section 4.3, rule 2): heuristic-only decision
on the feature scores, with the same high/mid banding; opacity drives the
cataract family and redness the conjunctivitis family. -/
def fuseHeuristic (ph pm : ℚ) (f : FeatureSet) : Diagnosis × ℚ :=
  if ph ≤ f.opacity_score ∧ ph ≤ f.redness_score then
    (.multiple_conditions, max f.opacity_score f.redness_score)
  else if ph ≤ f.opacity_score then (.cataracts, f.opacity_score)
  else if ph ≤ f.redness_score then (.conjunctivitis, f.redness_score)
  else if pm ≤ f.opacity_score ∧ f.redness_score < pm then (.opacidades_menores, f.opacity_score)
  else if pm ≤ f.redness_score ∧ f.opacity_score < pm then (.redness_minor, f.redness_score)
  else if pm ≤ f.opacity_score ∧ pm ≤ f.redness_score then
    (if f.redness_score ≤ f.opacity_score then (.opacidades_menores, f.opacity_score)
     else (.redness_minor, f.redness_score))
  else (.normal, clamp01 (1 - max f.opacity_score f.redness_score))

/-! ## Co-finding detector -/

/-- Confidence band of a co-finding. -/
inductive CoLevel where
  | likely
  | possible
deriving DecidableEq

/-- One co-finding entry. -/
structure Finding where
  label : String
  prob : ℚ
  level : CoLevel
deriving DecidableEq

/-- Default disclosure threshold for co-findings (spec section 4.4). -/
def CO_POSSIBLE : ℚ := 2/5

/-- Insertion step of the descending sort on probabilities. -/
def insertDescBy (x : String × ℚ) : List (String × ℚ) → List (String × ℚ)
  | [] => [x]
  | y :: ys => if y.2 ≤ x.2 then x :: y :: ys else y :: insertDescBy x ys

/-- Sort an association list by probability, highest first. -/
def sortDescBy : List (String × ℚ) → List (String × ℚ)
  | [] => []
  | x :: xs => insertDescBy x (sortDescBy xs)

/-- Modelled from the spec (section 4.4): the Co-Finding Detector keeps
every non-primary class whose probability exceeds the disclosure
threshold, sorts highest first, caps at four entries, and grades each as
likely above the mid threshold, else possible. -/
def coFindings (thr pm : ℚ) (vec : List (String × ℚ)) (primary : String) : List Finding :=
  ((sortDescBy (vec.filter (fun p => decide (p.1 ≠ primary ∧ thr < p.2)))).take 4).map
    (fun p => ⟨p.1, p.2, if pm < p.2 then .likely else .possible⟩)

/-! ## Result assembler and the analyze entry point -/

/-- Runtime information of one analysis. -/
structure Runtime where
  model_count : ℕ
  providers : List String
deriving DecidableEq

/-- Modelled from the spec (section 3): the terminal FusionResult record. -/
structure FusionResult where
  diagnosis : Diagnosis
  severity : Severity
  confidence_score : ℚ
  ai_confidence : Option ℚ
  co_findings : List Finding
  feature_set : FeatureSet
  uncertainty : Option UncertaintyEstimate
  runtime : Runtime

/-- The unrecoverable error of the engine (spec section 7). -/
inductive AnalyzeError where
  | invalidImage
deriving DecidableEq

/-- Pseudo probability vector driving co-findings in heuristic-only mode. -/
def heurVec (f : FeatureSet) : List (String × ℚ) :=
  [("cataracts", f.opacity_score), ("conjunctivitis", f.redness_score)]

/-- The ensemble vector as an association list over the class set. -/
def probVecList (v : ProbVector) : List (String × ℚ) :=
  [("normal", v.normal), ("cataracts", v.cataracts), ("conjunctivitis", v.conjunctivitis)]

/-- Modelled from the spec (sections 4.2-4.5, 6, 7): the single entry
point.  An invalid image is the only error; failing models are dropped;
with no usable model the engine degrades to heuristics-only with null AI
confidence and null uncertainty; otherwise the ensemble vector drives the
decision and the uncertainty estimate. -/
def analyze (img : ImageBuffer) (models : List Model) (seed : ℕ) :
    Except AnalyzeError FusionResult :=
  if img.valid then
    let fs := extractFeatures img
    match models.filter (fun m => !m.fails) with
    | [] =>
        let dc := fuseHeuristic P_HIGH P_MID fs
        .ok { diagnosis := dc.1
            , severity := sevOf dc.1 dc.2
            , confidence_score := dc.2
            , ai_confidence := none
            , co_findings := coFindings CO_POSSIBLE P_MID (heurVec fs) (diagKey dc.1)
            , feature_set := fs
            , uncertainty := none
            , runtime := ⟨0, []⟩ }
    | m0 :: rest =>
        let used := m0 :: rest
        let v := ensembleVec used img seed
        let runsAll := (used.map (fun m => modelRuns m img seed)).flatten
        let dc := fuseEnsemble P_HIGH P_MID v
        .ok { diagnosis := dc.1
            , severity := sevOf dc.1 dc.2
            , confidence_score := dc.2
            , ai_confidence := some (topProb v)
            , co_findings := coFindings CO_POSSIBLE P_MID (probVecList v) (diagKey dc.1)
            , feature_set := fs
            , uncertainty := some ⟨v, meanTopProb runsAll⟩
            , runtime := ⟨used.length, used.map Model.provider⟩ }
  else .error .invalidImage

/-! ## Entropy of the ensemble vector -/

/-- Number of classes of the system. -/
def NUM_CLASSES : ℕ := 3

/-- Modelled from the spec (section 4.2): Shannon entropy of the final
ensemble vector over its class set. -/
noncomputable def shannonEntropy (v : ProbVector) : ℝ :=
  Real.negMulLog (v.normal : ℝ) + Real.negMulLog (v.cataracts : ℝ) +
    Real.negMulLog (v.conjunctivitis : ℝ)

/-- The entropy field of an uncertainty estimate. -/
noncomputable def uncEntropy (u : UncertaintyEstimate) : ℝ := shannonEntropy u.vector

/-- Modelled from the spec: entropy divided by the natural log of the
number of classes, clamped to the unit interval. -/
noncomputable def uncEntropyNormalized (u : UncertaintyEstimate) : ℝ :=
  max 0 (min 1 (uncEntropy u / Real.log (NUM_CLASSES : ℝ)))

/-! ## Concrete inputs used by the witnesses -/

/-- A 2 by 5 image with nine black pixels and one gray pixel: its quality
score is 0.1 and its quality flag is low. -/
def imgLow : ImageBuffer :=
  ⟨2, 5, List.replicate 9 ⟨0, 0, 0⟩ ++ [⟨128, 128, 128⟩]⟩

/-- A single mid-gray pixel. -/
def img1 : ImageBuffer := ⟨1, 1, [⟨100, 100, 100⟩]⟩

/-- A sample class-probability association list. -/
def cfVec : List (String × ℚ) :=
  [("normal", 1/10), ("cataracts", 3/4), ("conjunctivitis", 1/2)]

/-- The single co-finding produced from `cfVec` with primary cataracts. -/
def cfFinding : Finding := ⟨"conjunctivitis", 1/2, CoLevel.possible⟩

/-- A sample uncertainty estimate. -/
def uncSample : UncertaintyEstimate := ⟨⟨1/2, 1/4, 1/4⟩, 1/2⟩

/-! ## Auxiliary interval and list lemmas -/

theorem unit_div {a b : ℚ} (h0 : 0 ≤ a) (h1 : a ≤ b) : 0 ≤ a / b ∧ a / b ≤ 1 := by
  rcases (le_trans h0 h1).lt_or_eq with hb | hb
  · exact ⟨div_nonneg h0 hb.le, (div_le_one hb).mpr h1⟩
  · rw [← hb, div_zero]
    norm_num

theorem clamp01_mem (q : ℚ) : 0 ≤ clamp01 q ∧ clamp01 q ≤ 1 :=
  ⟨le_max_left 0 _, max_le zero_le_one (min_le_left 1 q)⟩

theorem sum_map_le_mul_length {α : Type} (l : List α) (f : α → ℕ) (c : ℕ)
    (h : ∀ x ∈ l, f x ≤ c) : (l.map f).sum ≤ c * l.length := by
  induction l with
  | nil => simp
  | cons x xs ih =>
      simp only [List.map_cons, List.sum_cons, List.length_cons]
      calc f x + (xs.map f).sum
          ≤ c + c * xs.length :=
            Nat.add_le_add (h x (List.mem_cons_self x xs))
              (ih fun y hy => h y (List.mem_cons_of_mem x hy))
        _ = c * (xs.length + 1) := by ring

theorem countP_add_countP_le_length {α : Type} (p q : α → Bool) (l : List α)
    (h : ∀ x, p x = true → q x = false) :
    l.countP p + l.countP q ≤ l.length := by
  induction l with
  | nil => simp
  | cons x xs ih =>
      rw [List.countP_cons, List.countP_cons, List.length_cons]
      by_cases hp : p x = true
      · have hq := h x hp
        simp only [hp, hq, if_true, if_false, Bool.false_eq_true]
        omega
      · simp only [hp, Bool.false_eq_true, if_false]
        split <;> omega

theorem sum_map_unit {α : Type} (l : List α) (f : α → ℚ)
    (h : ∀ x ∈ l, 0 ≤ f x ∧ f x ≤ 1) :
    0 ≤ (l.map f).sum ∧ (l.map f).sum ≤ (l.length : ℚ) := by
  induction l with
  | nil => simp
  | cons x xs ih =>
      simp only [List.map_cons, List.sum_cons, List.length_cons]
      obtain ⟨hx0, hx1⟩ := h x (List.mem_cons_self x xs)
      obtain ⟨hs0, hs1⟩ := ih fun y hy => h y (List.mem_cons_of_mem x hy)
      push_cast
      constructor <;> linarith

/-! ## Feature extractor bounds -/

/-- Every score field of a FeatureSet lies in the unit interval. -/
def FeatureSet.Bounded (f : FeatureSet) : Prop :=
  0 ≤ f.redness_score ∧ f.redness_score ≤ 1 ∧
  0 ≤ f.opacity_score ∧ f.opacity_score ≤ 1 ∧
  0 ≤ f.vascular_density_score ∧ f.vascular_density_score ≤ 1 ∧
  0 ≤ f.quality_score ∧ f.quality_score ≤ 1 ∧
  0 ≤ f.mean_brightness ∧ f.mean_brightness ≤ 1 ∧
  0 ≤ f.dark_ratio ∧ f.dark_ratio ≤ 1 ∧
  0 ≤ f.bright_ratio ∧ f.bright_ratio ≤ 1

theorem extractFeatures_bounded (img : ImageBuffer) :
    (extractFeatures img).Bounded := by
  classical
  set px := img.pixels with hpx
  have hratio : ∀ p : Pixel → Bool,
      0 ≤ ((px.countP p : ℕ) : ℚ) / ((px.length : ℕ) : ℚ) ∧
        ((px.countP p : ℕ) : ℚ) / ((px.length : ℕ) : ℚ) ≤ 1 := by
    intro p
    exact unit_div (by positivity) (by exact_mod_cast List.countP_le_length p)
  have hdarkbright :
      ((px.countP isDark : ℕ) : ℚ) / (px.length : ℚ) +
        ((px.countP isBright : ℕ) : ℚ) / (px.length : ℚ) ≤ 1 := by
    rw [div_add_div_same]
    have hd : px.countP isDark + px.countP isBright ≤ px.length := by
      apply countP_add_countP_le_length
      intro x hx
      unfold isDark at hx
      unfold isBright
      simp only [decide_eq_true_eq] at hx
      simp only [decide_eq_false_iff_not]
      omega
    have := unit_div (a := ((px.countP isDark + px.countP isBright : ℕ) : ℚ))
      (b := (px.length : ℚ)) (by positivity) (by exact_mod_cast hd)
    push_cast at this ⊢
    exact this.2
  have hop : 0 ≤ (((px.map whiteness).sum : ℕ) : ℚ) / (255 * (px.length : ℚ)) ∧
      (((px.map whiteness).sum : ℕ) : ℚ) / (255 * (px.length : ℚ)) ≤ 1 := by
    apply unit_div (by positivity)
    have : (px.map whiteness).sum ≤ 255 * px.length := by
      apply sum_map_le_mul_length
      intro x _
      unfold whiteness
      have := x.r.isLt
      have := x.g.isLt
      have := x.b.isLt
      omega
    exact_mod_cast this
  have hmb : 0 ≤ (((px.map pixSum).sum : ℕ) : ℚ) / (765 * (px.length : ℚ)) ∧
      (((px.map pixSum).sum : ℕ) : ℚ) / (765 * (px.length : ℚ)) ≤ 1 := by
    apply unit_div (by positivity)
    have : (px.map pixSum).sum ≤ 765 * px.length := by
      apply sum_map_le_mul_length
      intro x _
      unfold pixSum
      have := x.r.isLt
      have := x.g.isLt
      have := x.b.isLt
      omega
    exact_mod_cast this
  unfold extractFeatures FeatureSet.Bounded
  simp only [← hpx]
  refine ⟨(clamp01_mem _).1, (clamp01_mem _).2, hop.1, hop.2,
    (hratio isVascular).1, (hratio isVascular).2, ?_, ?_, hmb.1, hmb.2,
    (hratio isDark).1, (hratio isDark).2, (hratio isBright).1, (hratio isBright).2⟩
  · have h1 := (hratio isDark).1
    have h2 := (hratio isBright).1
    linarith [hdarkbright]
  · have h1 := (hratio isDark).1
    have h2 := (hratio isBright).1
    linarith

/-! ## Ensemble vector wellformedness -/

theorem normalizeVec_wellformed (a b c : ℚ) : (normalizeVec a b c).Wellformed := by
  unfold normalizeVec ProbVector.Wellformed
  have ha : 0 ≤ max a 0 := le_max_right a 0
  have hb : 0 ≤ max b 0 := le_max_right b 0
  have hc : 0 ≤ max c 0 := le_max_right c 0
  split
  · norm_num
  · refine ⟨(unit_div ha (by linarith)).1, (unit_div ha (by linarith)).2,
      (unit_div hb (by linarith)).1, (unit_div hb (by linarith)).2,
      (unit_div hc (by linarith)).1, (unit_div hc (by linarith)).2⟩

theorem vecAvg_wellformed (l : List ProbVector)
    (h : ∀ v ∈ l, v.Wellformed) : (vecAvg l).Wellformed := by
  unfold vecAvg ProbVector.Wellformed
  have hn := sum_map_unit l ProbVector.normal fun v hv => ⟨(h v hv).1, (h v hv).2.1⟩
  have hc := sum_map_unit l ProbVector.cataracts fun v hv =>
    ⟨(h v hv).2.2.1, (h v hv).2.2.2.1⟩
  have hj := sum_map_unit l ProbVector.conjunctivitis fun v hv =>
    ⟨(h v hv).2.2.2.2.1, (h v hv).2.2.2.2.2⟩
  exact ⟨(unit_div hn.1 hn.2).1, (unit_div hn.1 hn.2).2,
    (unit_div hc.1 hc.2).1, (unit_div hc.1 hc.2).2,
    (unit_div hj.1 hj.2).1, (unit_div hj.1 hj.2).2⟩

theorem modelVec_wellformed (m : Model) (img : ImageBuffer) (seed : ℕ) :
    (modelVec m img seed).Wellformed := by
  apply vecAvg_wellformed
  intro v hv
  unfold modelRuns at hv
  obtain ⟨r, _, hr⟩ := List.mem_map.mp hv
  rw [← hr]
  unfold runVec
  exact normalizeVec_wellformed _ _ _

theorem ensembleVec_wellformed (usable : List Model) (img : ImageBuffer) (seed : ℕ) :
    (ensembleVec usable img seed).Wellformed := by
  apply vecAvg_wellformed
  intro v hv
  obtain ⟨m, _, hm⟩ := List.mem_map.mp hv
  rw [← hm]
  exact modelVec_wellformed m img seed

theorem topProb_mem (v : ProbVector) (h : v.Wellformed) :
    0 ≤ topProb v ∧ topProb v ≤ 1 := by
  obtain ⟨h1, h2, h3, h4, h5, h6⟩ := h
  unfold topProb
  constructor
  · exact le_trans h1 (le_max_left _ _)
  · exact max_le h2 (max_le h4 h6)

/-! ## Fusion confidence bounds -/

theorem fuseEnsemble_conf_mem (ph pm : ℚ) (v : ProbVector) (h : v.Wellformed) :
    0 ≤ (fuseEnsemble ph pm v).2 ∧ (fuseEnsemble ph pm v).2 ≤ 1 := by
  obtain ⟨h1, h2, h3, h4, h5, h6⟩ := h
  unfold fuseEnsemble
  split_ifs <;>
    first
      | exact ⟨le_trans h3 (le_max_left _ _), max_le h4 h6⟩
      | exact ⟨h3, h4⟩
      | exact ⟨h5, h6⟩
      | exact ⟨h1, h2⟩

theorem fuseHeuristic_conf_mem (ph pm : ℚ) (f : FeatureSet) (h : f.Bounded) :
    0 ≤ (fuseHeuristic ph pm f).2 ∧ (fuseHeuristic ph pm f).2 ≤ 1 := by
  obtain ⟨hr0, hr1, ho0, ho1, _⟩ := h
  unfold fuseHeuristic
  split_ifs <;>
    first
      | exact ⟨le_trans ho0 (le_max_left _ _), max_le ho1 hr1⟩
      | exact ⟨ho0, ho1⟩
      | exact ⟨hr0, hr1⟩
      | exact clamp01_mem _

/-! ## Sorting lemmas for the co-finding detector -/

theorem mem_insertDescBy (x a : String × ℚ) (l : List (String × ℚ)) :
    a ∈ insertDescBy x l ↔ a = x ∨ a ∈ l := by
  induction l with
  | nil => simp [insertDescBy]
  | cons y ys ih =>
      unfold insertDescBy
      split
      · simp only [List.mem_cons]
      · simp only [List.mem_cons, ih]
        tauto

theorem pairwise_insertDescBy (x : String × ℚ) (l : List (String × ℚ))
    (h : l.Pairwise (fun a b => b.2 ≤ a.2)) :
    (insertDescBy x l).Pairwise (fun a b => b.2 ≤ a.2) := by
  induction l with
  | nil => simp [insertDescBy]
  | cons y ys ih =>
      rw [List.pairwise_cons] at h
      obtain ⟨hy, hys⟩ := h
      unfold insertDescBy
      split
      · rename_i hle
        rw [List.pairwise_cons]
        refine ⟨?_, List.pairwise_cons.mpr ⟨hy, hys⟩⟩
        intro b hb
        rcases List.mem_cons.mp hb with rfl | hb
        · exact hle
        · exact le_trans (hy b hb) hle
      · rename_i hgt
        push_neg at hgt
        rw [List.pairwise_cons]
        refine ⟨?_, ih hys⟩
        intro b hb
        rcases (mem_insertDescBy x b ys).mp hb with rfl | hb
        · exact hgt.le
        · exact hy b hb

theorem pairwise_sortDescBy (l : List (String × ℚ)) :
    (sortDescBy l).Pairwise (fun a b => b.2 ≤ a.2) := by
  induction l with
  | nil => simp [sortDescBy]
  | cons x xs ih => exact pairwise_insertDescBy x _ ih

theorem mem_sortDescBy (a : String × ℚ) (l : List (String × ℚ)) :
    a ∈ sortDescBy l ↔ a ∈ l := by
  induction l with
  | nil => simp [sortDescBy]
  | cons x xs ih =>
      unfold sortDescBy
      rw [mem_insertDescBy, ih, List.mem_cons]

/-! ## Claim theorems -/

/-- Claim C1: for every valid image, `analyze` returns a FusionResult even
when zero models are configured or every model fails: it never raises,
falls back to heuristics-only, and the returned record has
`ai_confidence = null` and `runtime.model_count = 0`. -/
theorem analyze_degraded_mode (img : ImageBuffer) (models : List Model) (seed : ℕ)
    (hv : img.valid = true)
    (hm : models = [] ∨ ∀ m ∈ models, m.fails = true) :
    ∃ r : FusionResult, analyze img models seed = .ok r ∧
      r.ai_confidence = none ∧ r.runtime.model_count = 0 ∧ r.uncertainty = none := by
  have hfil : models.filter (fun m => !m.fails) = [] := by
    rw [List.filter_eq_nil_iff]
    intro m hmem
    rcases hm with rfl | h
    · cases hmem
    · simp [h m hmem]
  simp only [analyze, hv, hfil, if_true]
  exact ⟨_, rfl, rfl, rfl, rfl⟩

/-- Witness for C1: analyzing a concrete valid one-pixel image with zero
configured models succeeds in degraded mode. -/
theorem analyze_degraded_mode_witness :
    ∃ r : FusionResult, analyze img1 [] 0 = .ok r ∧
      r.ai_confidence = none ∧ r.runtime.model_count = 0 ∧ r.uncertainty = none :=
  analyze_degraded_mode img1 [] 0 (by decide) (Or.inl rfl)

/-- Claim C5: the quality gate is advisory, never blocking: for every
valid image, whatever its quality score and flag, `analyze` still returns
a full FusionResult, and the FeatureSet (hence the quality flag and score)
propagates unchanged into the result. -/
theorem analyze_quality_advisory (img : ImageBuffer) (models : List Model) (seed : ℕ)
    (hv : img.valid = true) :
    ∃ r : FusionResult, analyze img models seed = .ok r ∧
      r.feature_set = extractFeatures img := by
  cases hfil : models.filter (fun m => !m.fails) with
  | nil =>
      simp only [analyze, hv, hfil, if_true]
      exact ⟨_, rfl, rfl⟩
  | cons m0 rest =>
      simp only [analyze, hv, hfil, if_true]
      exact ⟨_, rfl, rfl⟩

/-- Witness for C5: a concrete image with quality score 0.1 (flag low)
still produces a full diagnosis record carrying that flag. -/
theorem analyze_quality_advisory_witness :
    (extractFeatures imgLow).quality_score = 1/10 ∧
    (extractFeatures imgLow).quality_flag = QualityFlag.low ∧
    ∃ r : FusionResult, analyze imgLow [] 0 = .ok r ∧
      r.feature_set = extractFeatures imgLow :=
  ⟨by with_unfolding_all decide, by with_unfolding_all decide,
    analyze_quality_advisory imgLow [] 0 (by decide)⟩

/-- Claim C7: for every valid image, the FusionResult returned by
`analyze` has its confidence score in the unit interval and every score of
its FeatureSet in the unit interval. -/
theorem analyze_scores_unit (img : ImageBuffer) (models : List Model) (seed : ℕ)
    (hv : img.valid = true) :
    ∃ r : FusionResult, analyze img models seed = .ok r ∧
      0 ≤ r.confidence_score ∧ r.confidence_score ≤ 1 ∧ r.feature_set.Bounded := by
  cases hfil : models.filter (fun m => !m.fails) with
  | nil =>
      simp only [analyze, hv, hfil, if_true]
      exact ⟨_, rfl,
        (fuseHeuristic_conf_mem P_HIGH P_MID _ (extractFeatures_bounded img)).1,
        (fuseHeuristic_conf_mem P_HIGH P_MID _ (extractFeatures_bounded img)).2,
        extractFeatures_bounded img⟩
  | cons m0 rest =>
      simp only [analyze, hv, hfil, if_true]
      exact ⟨_, rfl,
        (fuseEnsemble_conf_mem P_HIGH P_MID _ (ensembleVec_wellformed (m0 :: rest) img seed)).1,
        (fuseEnsemble_conf_mem P_HIGH P_MID _ (ensembleVec_wellformed (m0 :: rest) img seed)).2,
        extractFeatures_bounded img⟩

/-- Witness for C7: the bounds hold on a concrete analysis. -/
theorem analyze_scores_unit_witness :
    ∃ r : FusionResult, analyze img1 [] 0 = .ok r ∧
      0 ≤ r.confidence_score ∧ r.confidence_score ≤ 1 ∧ r.feature_set.Bounded :=
  analyze_scores_unit img1 [] 0 (by decide)

/-- Claim C8: the pipeline is deterministic as a two-run property: two
calls to `analyze` with the same image, the same configured models and the
same augmentation seed return identical FusionResults. -/
theorem analyze_deterministic (imgA imgB : ImageBuffer) (ms ns : List Model)
    (s t : ℕ) (h1 : imgA = imgB) (h2 : ms = ns) (h3 : s = t) :
    analyze imgA ms s = analyze imgB ns t := by
  subst h1
  subst h2
  subst h3
  rfl

/-- Witness for C8: two concrete identical runs agree. -/
theorem analyze_deterministic_witness :
    analyze img1 [] 0 = analyze img1 [] 0 :=
  analyze_deterministic img1 img1 [] [] 0 0 rfl rfl rfl

/-- Claim C2: whenever both non-normal classes reach the high threshold
(ties at exactly `P_HIGH` included), the fusion engine returns
`multiple_conditions`, never an arbitrary single winner. -/
theorem fuseEnsemble_tie_multiple (ph pm : ℚ) (v : ProbVector)
    (hc : ph ≤ v.cataracts) (hj : ph ≤ v.conjunctivitis) :
    (fuseEnsemble ph pm v).1 = Diagnosis.multiple_conditions := by
  unfold fuseEnsemble
  rw [if_pos ⟨hc, hj⟩]

/-- Witness for C2: the synthetic tie vector with cataracts and
conjunctivitis both exactly at the default high threshold 0.75 resolves to
`multiple_conditions`. -/
theorem fuseEnsemble_tie_multiple_witness :
    (fuseEnsemble P_HIGH P_MID ⟨0, 3/4, 3/4⟩).1 = Diagnosis.multiple_conditions :=
  fuseEnsemble_tie_multiple P_HIGH P_MID ⟨0, 3/4, 3/4⟩
    (by with_unfolding_all decide) (by with_unfolding_all decide)

/-- Claim C3: for every class-probability vector and primary diagnosis,
the co-finding detector returns a list that excludes the primary class,
contains only classes of the vector whose probability exceeds the
disclosure threshold, is sorted descending by probability, has at most
four entries, and grades an entry likely exactly when its probability also
exceeds the mid threshold, else possible. -/
theorem coFindings_spec (thr pm : ℚ) (vec : List (String × ℚ)) (primary : String) :
    (∀ f ∈ coFindings thr pm vec primary,
        f.label ≠ primary ∧ thr < f.prob ∧ (f.label, f.prob) ∈ vec ∧
          (f.level = CoLevel.likely ↔ pm < f.prob)) ∧
    (coFindings thr pm vec primary).length ≤ 4 ∧
    (coFindings thr pm vec primary).Pairwise (fun a b => b.prob ≤ a.prob) := by
  unfold coFindings
  refine ⟨?_, ?_, ?_⟩
  · intro f hf
    obtain ⟨p, hp, hfp⟩ := List.mem_map.mp hf
    have hmem := List.mem_of_mem_take hp
    rw [mem_sortDescBy] at hmem
    obtain ⟨hvec, hpred⟩ := List.mem_filter.mp hmem
    have hpred' := of_decide_eq_true hpred
    rw [← hfp]
    refine ⟨hpred'.1, hpred'.2, hvec, ?_⟩
    by_cases hpm : pm < p.2 <;> simp [hpm]
  · rw [List.length_map, List.length_take]
    exact le_trans (min_le_left _ _) (le_refl 4)
  · rw [List.pairwise_map]
    exact (pairwise_sortDescBy _).sublist (List.take_sublist _ _)

/-- Witness for C3: the concrete co-finding computed from `cfVec` with
primary cataracts satisfies the per-entry contract. -/
theorem coFindings_spec_witness :
    cfFinding.label ≠ "cataracts" ∧ CO_POSSIBLE < cfFinding.prob ∧
      (cfFinding.label, cfFinding.prob) ∈ cfVec ∧
      (cfFinding.level = CoLevel.likely ↔ P_MID < cfFinding.prob) :=
  (coFindings_spec CO_POSSIBLE P_MID cfVec "cataracts").1 cfFinding
    (by with_unfolding_all decide)

/-- Claim C4: the uncertainty estimate of an ensemble run has entropy
equal to the Shannon entropy of the final ensemble vector, normalized
entropy equal to entropy divided by the natural log of the number of
classes clamped to the unit interval (hence always within the unit
interval), and nonnegative entropy on wellformed vectors. -/
theorem uncertainty_entropy_spec (u : UncertaintyEstimate) :
    uncEntropy u = shannonEntropy u.vector ∧
    uncEntropyNormalized u =
      max 0 (min 1 (shannonEntropy u.vector / Real.log (NUM_CLASSES : ℝ))) ∧
    0 ≤ uncEntropyNormalized u ∧ uncEntropyNormalized u ≤ 1 ∧
    (u.vector.Wellformed → 0 ≤ uncEntropy u) := by
  refine ⟨rfl, rfl, le_max_left _ _, max_le zero_le_one (min_le_left _ _), ?_⟩
  intro hw
  obtain ⟨h1, h2, h3, h4, h5, h6⟩ := hw
  have e1 : 0 ≤ Real.negMulLog ((u.vector.normal : ℚ) : ℝ) :=
    Real.negMulLog_nonneg (by exact_mod_cast h1) (by exact_mod_cast h2)
  have e2 : 0 ≤ Real.negMulLog ((u.vector.cataracts : ℚ) : ℝ) :=
    Real.negMulLog_nonneg (by exact_mod_cast h3) (by exact_mod_cast h4)
  have e3 : 0 ≤ Real.negMulLog ((u.vector.conjunctivitis : ℚ) : ℝ) :=
    Real.negMulLog_nonneg (by exact_mod_cast h5) (by exact_mod_cast h6)
  unfold uncEntropy shannonEntropy
  linarith

/-- Witness for C4: the entropy of a concrete wellformed estimate is
nonnegative. -/
theorem uncertainty_entropy_spec_witness : 0 ≤ uncEntropy uncSample :=
  (uncertainty_entropy_spec uncSample).2.2.2.2 (by with_unfolding_all decide)

/-- Counterexample to C6 as stated: the diagnosis vocabulary of the
program (the keys of the frontend lookup table `DIAGNOSIS_ES`, App.js
lines 1429-1437) has no entries `minor_opacities` or `minor_redness`; the
minor-variant diagnoses are keyed `opacidades_menores` and
`redness_minor`. -/
theorem minor_label_names_absent :
    DIAGNOSIS_ES "minor_opacities" = none ∧
    DIAGNOSIS_ES "minor_redness" = none ∧
    DIAGNOSIS_ES "opacidades_menores" = some "Opacidades menores" ∧
    DIAGNOSIS_ES "redness_minor" = some "Rojez moderada" := by
  refine ⟨?_, ?_, rfl, rfl⟩ <;> decide

/-- Claim C6 (amended): when no class reaches the high threshold and
exactly one non-normal class reaches the mid threshold, the engine returns
that class's minor-variant diagnosis — keyed `opacidades_menores` for the
cataract family and `redness_minor` for the conjunctivitis family, the
keys the frontend table recognizes — and when no class reaches the mid
threshold the diagnosis is normal. -/
theorem fuseEnsemble_minor_variants (ph pm : ℚ) (v : ProbVector)
    (hch : v.cataracts < ph) (hjh : v.conjunctivitis < ph) :
    (pm ≤ v.cataracts → v.conjunctivitis < pm →
        (fuseEnsemble ph pm v).1 = Diagnosis.opacidades_menores) ∧
    (pm ≤ v.conjunctivitis → v.cataracts < pm →
        (fuseEnsemble ph pm v).1 = Diagnosis.redness_minor) ∧
    (v.cataracts < pm → v.conjunctivitis < pm →
        (fuseEnsemble ph pm v).1 = Diagnosis.normal) ∧
    DIAGNOSIS_ES (diagKey Diagnosis.opacidades_menores) = some "Opacidades menores" ∧
    DIAGNOSIS_ES (diagKey Diagnosis.redness_minor) = some "Rojez moderada" := by
  refine ⟨?_, ?_, ?_, rfl, rfl⟩
  · intro hc hj
    unfold fuseEnsemble
    rw [if_neg (by rintro ⟨h, _⟩; exact absurd h (not_le.mpr hch)),
      if_neg (not_le.mpr hch), if_neg (not_le.mpr hjh), if_pos ⟨hc, hj⟩]
  · intro hj hc
    unfold fuseEnsemble
    rw [if_neg (by rintro ⟨h, _⟩; exact absurd h (not_le.mpr hch)),
      if_neg (not_le.mpr hch), if_neg (not_le.mpr hjh),
      if_neg (by rintro ⟨h, _⟩; exact absurd h (not_le.mpr hc)),
      if_pos ⟨hj, hc⟩]
  · intro hc hj
    unfold fuseEnsemble
    rw [if_neg (by rintro ⟨h, _⟩; exact absurd h (not_le.mpr hch)),
      if_neg (not_le.mpr hch), if_neg (not_le.mpr hjh),
      if_neg (by rintro ⟨h, _⟩; exact absurd h (not_le.mpr hc)),
      if_neg (by rintro ⟨h, _⟩; exact absurd h (not_le.mpr hj)),
      if_neg (by rintro ⟨h, _⟩; exact absurd h (not_le.mpr hc))]

/-- Witness for C6 (amended): a concrete vector with only the cataract
class in the mid band yields the `opacidades_menores` diagnosis. -/
theorem fuseEnsemble_minor_variants_witness :
    (fuseEnsemble P_HIGH P_MID ⟨3/20, 3/5, 1/4⟩).1 = Diagnosis.opacidades_menores :=
  (fuseEnsemble_minor_variants P_HIGH P_MID ⟨3/20, 3/5, 1/4⟩
      (by with_unfolding_all decide) (by with_unfolding_all decide)).1
    (by with_unfolding_all decide) (by with_unfolding_all decide)

/-! ## Lemmas for toAbsoluteUrl -/

theorem jsStartsWith_append (p b s : JStr) (h : jsStartsWith p b = true) :
    jsStartsWith p (b ++ s) = true := by
  induction p generalizing b with
  | nil => rfl
  | cons a as ih =>
      cases b with
      | nil => simp [jsStartsWith] at h
      | cons c cs =>
          simp only [List.cons_append]
          unfold jsStartsWith at h ⊢
          rw [Bool.and_eq_true] at h ⊢
          exact ⟨h.1, ih cs h.2⟩

theorem toAbsoluteUrl_http (t : JStr)
    (h : (jsStartsWith "http://".toList t || jsStartsWith "https://".toList t) = true) :
    toAbsoluteUrl (.str t) = .str t := by
  have hne : t ≠ [] := by
    rintro rfl
    revert h
    decide
  simp only [toAbsoluteUrl]
  rw [if_neg hne, if_pos h]

theorem jsStartsWith_slash_not_http (s : JStr)
    (hs : jsStartsWith "/".toList s = true) :
    (jsStartsWith "http://".toList s || jsStartsWith "https://".toList s) = false := by
  cases s with
  | nil => exact absurd hs (by decide)
  | cons c cs =>
      have h1 : (('/' == c) && jsStartsWith [] cs) = true := hs
      rw [Bool.and_eq_true] at h1
      have hc : c = '/' := (beq_iff_eq.mp h1.1).symm
      subst hc
      rfl

theorem toAbsoluteUrl_idem (v : JsValue) :
    toAbsoluteUrl (toAbsoluteUrl v) = toAbsoluteUrl v := by
  cases v with
  | nullV => rfl
  | undef => rfl
  | other => rfl
  | str s =>
      by_cases h0 : s = []
      · subst h0
        rfl
      · by_cases hh :
            (jsStartsWith "http://".toList s || jsStartsWith "https://".toList s) = true
        · have h1 : toAbsoluteUrl (.str s) = .str s := toAbsoluteUrl_http s hh
          rw [h1]
          exact h1
        · by_cases hslash : jsStartsWith "/".toList s = true
          · have h1 : toAbsoluteUrl (.str s) = .str (BACKEND_URL ++ s) := by
              simp only [toAbsoluteUrl]
              rw [if_neg h0, if_neg hh, if_pos hslash]
            rw [h1]
            exact toAbsoluteUrl_http (BACKEND_URL ++ s)
              (by
                rw [Bool.or_eq_true]
                exact Or.inl (jsStartsWith_append _ _ s (by decide)))
          · have h1 : toAbsoluteUrl (.str s) = .str s := by
              simp only [toAbsoluteUrl]
              rw [if_neg h0, if_neg hh, if_neg hslash]
            rw [h1]
            exact h1

/-- Claim C9: `toAbsoluteUrl` is idempotent on every JavaScript value;
strings already starting with an absolute scheme are returned unchanged,
strings starting with a slash are prefixed with the backend base URL
exactly once, and null or non-string values are returned unchanged. -/
theorem toAbsoluteUrl_spec (v : JsValue) :
    toAbsoluteUrl (toAbsoluteUrl v) = toAbsoluteUrl v ∧
    (∀ s : JStr, v = .str s →
      ((jsStartsWith "http://".toList s || jsStartsWith "https://".toList s) = true →
          toAbsoluteUrl v = v) ∧
      (jsStartsWith "/".toList s = true →
          toAbsoluteUrl v = .str (BACKEND_URL ++ s))) ∧
    ((∀ s : JStr, v ≠ .str s) → toAbsoluteUrl v = v) := by
  refine ⟨toAbsoluteUrl_idem v, ?_, ?_⟩
  · rintro s rfl
    constructor
    · intro hh
      exact toAbsoluteUrl_http s hh
    · intro hslash
      have h0 : s ≠ [] := by
        rintro rfl
        exact absurd hslash (by decide)
      have hh := jsStartsWith_slash_not_http s hslash
      simp only [toAbsoluteUrl]
      rw [if_neg h0, if_neg (by rw [hh]; exact Bool.false_ne_true), if_pos hslash]
  · intro hns
    cases v with
    | nullV => rfl
    | undef => rfl
    | other => rfl
    | str s => exact absurd rfl (hns s)

/-- Witness for C9: a concrete relative media path is absolutized exactly
once and is then a fixed point. -/
theorem toAbsoluteUrl_spec_witness :
    toAbsoluteUrl (JsValue.str "/media/eye.png".toList) =
      JsValue.str (BACKEND_URL ++ "/media/eye.png".toList) ∧
    toAbsoluteUrl (toAbsoluteUrl (JsValue.str "/media/eye.png".toList)) =
      toAbsoluteUrl (JsValue.str "/media/eye.png".toList) :=
  ⟨((toAbsoluteUrl_spec (JsValue.str "/media/eye.png".toList)).2.1 _ rfl).2 (by decide),
    (toAbsoluteUrl_spec (JsValue.str "/media/eye.png".toList)).1⟩

/-- Claim C10: the Gauge and MetricBar display components are total and
clamped: for every input value (NaN and non-numeric modelled as `none`,
any rational otherwise), Gauge clamps the coerced value to the unit
interval and renders a percentage within 0..100, and MetricBar renders a
percentage clamped to 0..100. -/
theorem gauge_metricBar_clamped (value : JsNumber) :
    0 ≤ Gauge_v value ∧ Gauge_v value ≤ 1 ∧
    0 ≤ Gauge_pct value ∧ Gauge_pct value ≤ 100 ∧
    0 ≤ MetricBar_pct value ∧ MetricBar_pct value ≤ 100 := by
  have hv0 : 0 ≤ Gauge_v value := le_max_left _ _
  have hv1 : Gauge_v value ≤ 1 := max_le zero_le_one (min_le_left _ _)
  refine ⟨hv0, hv1, ?_, ?_, le_max_left _ _, max_le (by norm_num) (min_le_left _ _)⟩
  · unfold Gauge_pct
    rw [round_eq]
    apply Int.le_floor.mpr
    push_cast
    nlinarith
  · unfold Gauge_pct
    rw [round_eq]
    have hlt : ⌊Gauge_v value * 100 + 1/2⌋ < 101 := by
      apply Int.floor_lt.mpr
      push_cast
      nlinarith
    omega

end VisionCare
